import Mathlib

/-!
Shallow embedding of the request/response correlation engine of
`src/telegram_mcp/server.py` (class `TelegramMCPServer`), faithful to the
Python source:

* text is modelled as `List Char` (Python `str`);
* the Python dicts returned by the MCP tools are modelled as ordered
  key/value lists (`List (String × JValue)`), so that *which keys are
  present* is observable, exactly as in the source;
* `self.pending_responses` (a Python `dict`, insertion-ordered) is an
  association list `List (String × PendingResponse)`;
* `self.conversation_history` (`collections.deque(maxlen=n)`) is a list with
  the bounded-append operation `dequeAppend`;
* `datetime.now().isoformat()` timestamps are modelled by a monotone `Nat`
  supplied by the caller (ISO strings of one process compare chronologically);
* the suspension inside `send_message_to_human` splits the tool into
  `send_message_to_human_phase1` (up to the `await` of the wake event) and
  `wait_for_response_phase2` (resumption: timeout, wake, or cancellation of
  the calling task — the `try/finally` of `_wait_for_response`);
* `bot.send_message` is an explicit channel function
  `List Char → Except (List Char) Nat` (error text or assigned message id);
  phase 1 also returns the list of texts handed to the channel, so the sent
  payload is observable;
* `update.message.reply_text` calls are recorded as `Ack` values.
-/

namespace TelegramMCP

/-- `Constants.MAX_HISTORY_SIZE` from the source. -/
def MAX_HISTORY_SIZE : Nat := 1000

/-- `Constants.DEFAULT_TIMEOUT` from the source. -/
def DEFAULT_TIMEOUT : Nat := 300

/-- The backslash character used by `escape_markdown` (`f'\\{char}'`). -/
def backslashChar : Char := '\\'

/-- The 18 `special_chars` of `escape_markdown` (Telegram MarkdownV2).
The backtick and the braces are written via `Char.ofNat` (code points 96,
123, 125). -/
def special_chars : List Char :=
  ['_', '*', '[', ']', '(', ')', '~', Char.ofNat 96, '>', '#', '+', '-',
   '=', '|', Char.ofNat 123, Char.ofNat 125, '.', '!']

/-- One pass `text.replace(char, f'\\{char}')` of the Python loop body, for a
single-character pattern: every occurrence of `c` becomes backslash-`c`. -/
def replaceEscape (text : List Char) (c : Char) : List Char :=
  text.flatMap (fun x => if x = c then [backslashChar, x] else [x])

/-- `escape_markdown` from the source: sequentially replace each special
character by its backslash-escaped form. -/
def escape_markdown (text : List Char) : List Char :=
  special_chars.foldl replaceEscape text

/-- Single-pass description of escaping: one backslash inserted immediately
before each occurrence of a special character, all other characters kept. -/
def escSpec (l : List Char) : List Char :=
  l.flatMap (fun c => if c ∈ special_chars then [backslashChar, c] else [c])

/-- Boolean test for membership in `special_chars`. -/
def specialP (c : Char) : Bool := decide (c ∈ special_chars)

/-- JSON-like values appearing in the dicts the tools return. -/
inductive JValue where
  | bool (b : Bool)
  | str (s : List Char)
  | num (n : Nat)
  | null
deriving DecidableEq

/-- A Python dict result: ordered key/value pairs, keys as written in the
source. -/
abbrev ToolResult := List (String × JValue)

/-- The value stored in `self.pending_responses[response_id]`:
`{'waiting': …, 'response': …, 'timestamp': …, 'event': …}`. The
`asyncio.Event` is modelled by its set/unset state `eventSet`. -/
structure PendingResponse where
  waiting : Bool
  response : Option (List Char)
  timestamp : Nat
  eventSet : Bool
deriving DecidableEq

/-- One entry of `self.conversation_history`:
`{'timestamp': …, 'type': …, 'message': …, 'message_id': …}`. -/
structure HistoryEntry where
  timestamp : Nat
  msgType : String
  message : List Char
  message_id : Nat
deriving DecidableEq

/-- The mutable state of a `TelegramMCPServer` instance (the fields the
correlation engine reads and writes). -/
structure ServerState where
  authorized_chat_id : Int
  max_history_size : Nat
  pending_responses : List (String × PendingResponse)
  conversation_history : List HistoryEntry
  shutdownEvent : Bool
deriving DecidableEq

/-- `datetime.now().isoformat()` rendered from the monotone counter. -/
def isoTs (n : Nat) : List Char := (toString n).data

/-- Append to a `collections.deque(maxlen=cap)`: when the new length exceeds
the capacity, entries are evicted from the front. -/
def dequeAppend (cap : Nat) (log : List HistoryEntry) (e : HistoryEntry) :
    List HistoryEntry :=
  let l := log ++ [e]
  if cap < l.length then l.drop (l.length - cap) else l

/-- `response_id = f"response_{sent_message.message_id}"`. -/
def response_id_of (mid : Nat) : String := "response_" ++ toString mid

/-- Outcome of `send_message_to_human` up to its first suspension point:
either the tool returned a dict, or the caller is suspended in
`_wait_for_response` on the registered `response_id`. -/
inductive SendPhase where
  | done (st : ServerState) (result : ToolResult)
  | suspended (st : ServerState) (response_id : String) (message_id : Nat)
deriving DecidableEq

/-- State carried by a `SendPhase`. -/
def SendPhase.state : SendPhase → ServerState
  | .done st _ => st
  | .suspended st _ _ => st

/-- Result carried by a `SendPhase`, when the tool already returned. -/
def SendPhase.result : SendPhase → Option ToolResult
  | .done _ r => some r
  | .suspended _ _ _ => none

/-- `send_message_to_human(message, wait_for_response, …, escape_markdown_chars)`
up to the suspension inside `_wait_for_response`. `sendFn` is
`bot.send_message` (returns the assigned `message_id` or raises with an
error text); `now` is the current timestamp. The second component is the
list of texts handed to the channel. Paths, exactly as in the source:
send failure → `{'sent': False, 'error': e, 'timestamp': ts}`, state
untouched; success without wait → history appended, then
`{'sent': True, 'message_id': mid, 'timestamp': ts}`; success with wait →
history appended, a Waiting `PendingResponse` registered under
`response_id_of mid`, caller suspended. -/
def send_message_to_human_phase1 (st : ServerState) (message : List Char)
    (wait_for_response : Bool) (escape_markdown_chars : Bool)
    (sendFn : List Char → Except (List Char) Nat) (now : Nat) :
    SendPhase × List (List Char) :=
  let safe_message :=
    if escape_markdown_chars then escape_markdown message else message
  match sendFn safe_message with
  | .error e =>
      (.done st [("sent", .bool false), ("error", .str e),
                 ("timestamp", .str (isoTs now))],
       [safe_message])
  | .ok mid =>
      let st1 := { st with
        conversation_history :=
          dequeAppend st.max_history_size st.conversation_history
            ⟨now, "llm_to_human", message, mid⟩ }
      if wait_for_response then
        let rid := response_id_of mid
        let st2 := { st1 with
          pending_responses :=
            st1.pending_responses ++ [(rid, ⟨true, none, now, false⟩)] }
        (.suspended st2 rid mid, [safe_message])
      else
        (.done st1 [("sent", .bool true), ("message_id", .num mid),
                    ("timestamp", .str (isoTs now))],
         [safe_message])

/-- How the suspension of `_wait_for_response` ends: `asyncio.wait_for`
times out; the wake event fires (set by an inbound reply or by
`shutdown_handler`); or the calling task itself is cancelled (the
exception propagates, only the `finally` runs). -/
inductive WakeReason where
  | timeout
  | woken
  | cancelled
deriving DecidableEq

/-- Resumption of `send_message_to_human` after the suspension: the body of
`_wait_for_response` after `await asyncio.wait_for(...)` together with the
enclosing `try/except asyncio.TimeoutError` of the tool. On every reason the
`finally` pops `response_id` from the registry. On `woken` the tool returns
`{'sent': True, 'response': r, 'message_id': mid, 'timestamp': ts}` where
`r` is the `'response'` field of the registered entry; on `timeout` it
returns `{'sent': True, 'response': None, 'error': 'Response timeout',
'message_id': mid, 'timestamp': ts}`; on `cancelled` nothing is returned
(the cancellation propagates). -/
def wait_for_response_phase2 (st : ServerState) (rid : String) (mid : Nat)
    (reason : WakeReason) (now : Nat) : ServerState × Option ToolResult :=
  let st' := { st with
    pending_responses :=
      st.pending_responses.eraseP (fun e => e.1 == rid) }
  match reason with
  | .timeout =>
      (st', some [("sent", .bool true), ("response", .null),
                  ("error", .str "Response timeout".data),
                  ("message_id", .num mid), ("timestamp", .str (isoTs now))])
  | .woken =>
      let resp :=
        match st.pending_responses.lookup rid with
        | some p => p.response
        | none => none
      (st', some [("sent", .bool true),
                  ("response", match resp with
                               | some t => .str t
                               | none => .null),
                  ("message_id", .num mid), ("timestamp", .str (isoTs now))])
  | .cancelled => (st', none)

/-- The `reply_text` acknowledgments of `handle_telegram_message`. -/
inductive Ack where
  | unauthorized
  | received
  | noted
deriving DecidableEq

/-- One comparison step of Python's `max` with a key function: keep the
current best unless the next element's key is strictly larger. -/
def pickLatest (best x : String × PendingResponse) : String × PendingResponse :=
  if best.2.timestamp < x.2.timestamp then x else best

/-- `max(self.pending_responses.keys(), key=lambda x: …['timestamp'])`:
the first entry (in insertion order) whose timestamp no later entry
strictly exceeds — Python's `max` keeps the first maximal element. -/
def latestEntry : List (String × PendingResponse) →
    Option (String × PendingResponse)
  | [] => none
  | e :: rest => some (rest.foldl pickLatest e)

/-- `handle_telegram_message(update, context)` for an inbound text `text`
with Telegram message id `mid` from chat `chat_id`, at time `now`. Returns
the new state and the acknowledgments sent. Unauthorized chat → reject and
stop. Otherwise append the inbound message to the history; if the registry
is non-empty and its most recent entry is `waiting`, store the text in it,
clear `waiting`, set its event and acknowledge `received`; otherwise
acknowledge `noted`. -/
def handle_telegram_message (st : ServerState) (chat_id : Int)
    (text : List Char) (mid : Nat) (now : Nat) : ServerState × List Ack :=
  if chat_id ≠ st.authorized_chat_id then
    (st, [.unauthorized])
  else
    let st1 := { st with
      conversation_history :=
        dequeAppend st.max_history_size st.conversation_history
          ⟨now, "human_to_llm", text, mid⟩ }
    match latestEntry st1.pending_responses with
    | some kp =>
        if kp.2.waiting then
          let st2 := { st1 with
            pending_responses :=
              st1.pending_responses.map (fun e =>
                if e.1 == kp.1 then
                  (e.1, { e.2 with
                            response := some text
                            waiting := false
                            eventSet := true })
                else e) }
          (st2, [.received])
        else
          (st1, [.noted])
    | none => (st1, [.noted])

/-- `shutdown_handler`: set the shutdown event and set the wake event of
every registered pending response. The registry entries themselves are not
removed here (each waiter's `finally` does that when it resumes). -/
def shutdown_handler (st : ServerState) : ServerState :=
  { st with
    shutdownEvent := true
    pending_responses :=
      st.pending_responses.map (fun e => (e.1, { e.2 with eventSet := true })) }

/-- Resume every suspended waiter once, in registry order: each registered
correlation id goes through the `woken` branch of `_wait_for_response`
(its wake event having been set), whose `finally` pops it. -/
def resumeAll (st : ServerState) (mid now : Nat) : ServerState :=
  (st.pending_responses.map Prod.fst).foldl
    (fun s rid => (wait_for_response_phase2 s rid mid .woken now).1) st

/-- The keys present in a returned dict, in order. -/
def resultKeys (r : ToolResult) : List String := r.map Prod.fst

/-- The last `n` elements of a list. -/
def takeRight (n : Nat) (l : List HistoryEntry) : List HistoryEntry :=
  l.drop (l.length - n)

/-! ## Lemmas about `escape_markdown` -/

theorem foldl_replaceEscape (cs : List Char) (l : List Char)
    (hnd : cs.Nodup) (hbs : backslashChar ∉ cs) :
    cs.foldl replaceEscape l =
      l.flatMap (fun x => if x ∈ cs then [backslashChar, x] else [x]) := by
  induction cs generalizing l with
  | nil => simp
  | cons c cs ih =>
    rw [List.foldl_cons]
    rw [List.nodup_cons] at hnd
    simp only [List.mem_cons, not_or] at hbs
    rw [ih (replaceEscape l c) hnd.2 hbs.2, replaceEscape,
      List.flatMap_assoc]
    apply List.flatMap_congr
    intro x _
    by_cases hx : x = c
    · subst hx
      simp [hnd.1, hbs.1, hbs.2]
    · simp only [if_neg hx, List.flatMap_cons, List.flatMap_nil,
        List.append_nil, List.mem_cons]
      rcases Decidable.em (x ∈ cs) with hm | hm
      · simp [hm, hx]
      · simp [hm, hx]

theorem escape_markdown_eq_escSpec (l : List Char) :
    escape_markdown l = escSpec l :=
  foldl_replaceEscape special_chars l (by decide) (by decide)

theorem length_escSpec (l : List Char) :
    (escSpec l).length = l.length + l.countP specialP := by
  induction l with
  | nil => simp [escSpec]
  | cons x t ih =>
    rw [escSpec, List.flatMap_cons, ← escSpec, List.length_append, ih,
      List.countP_cons]
    by_cases hx : x ∈ special_chars
    · have hxs : specialP x = true := by simp [specialP, hx]
      simp only [if_pos hx, hxs]
      simp; omega
    · have hxs : specialP x = false := by simp [specialP, hx]
      simp only [if_neg hx, hxs]
      simp; omega

theorem countP_escSpec (l : List Char) :
    (escSpec l).countP specialP = l.countP specialP := by
  induction l with
  | nil => simp [escSpec]
  | cons x t ih =>
    rw [escSpec, List.flatMap_cons, ← escSpec, List.countP_append, ih,
      List.countP_cons]
    by_cases hx : x ∈ special_chars
    · simp only [if_pos hx]
      have hb : specialP backslashChar = false := by decide
      have hxs : specialP x = true := by simp [specialP, hx]
      simp [List.countP_cons, hb, hxs]
      omega
    · simp only [if_neg hx]
      have hxs : specialP x = false := by simp [specialP, hx]
      simp [List.countP_cons, hxs]

/-- C10: `escape_markdown` inserts exactly one backslash before each
occurrence of each of the 18 special characters and leaves every other
character (including the backslash) unchanged; hence applying it twice
differs from applying it once whenever the input holds a special
character. -/
theorem C10_escape_markdown_single_pass (l : List Char) :
    escape_markdown l =
      l.flatMap (fun c => if c ∈ special_chars then [backslashChar, c]
                          else [c]) ∧
    special_chars.length = 18 ∧
    ∀ c, c ∈ l → c ∈ special_chars →
      escape_markdown (escape_markdown l) ≠ escape_markdown l := by
  refine ⟨escape_markdown_eq_escSpec l, by decide, ?_⟩
  intro c hc hcs heq
  have hpos : 0 < l.countP specialP :=
    List.countP_pos_iff.mpr ⟨c, hc, by simp [specialP, hcs]⟩
  have e1 : (escape_markdown (escape_markdown l)).length =
      (escape_markdown l).length + l.countP specialP := by
    rw [escape_markdown_eq_escSpec (escape_markdown l), length_escSpec]
    rw [escape_markdown_eq_escSpec l, countP_escSpec]
  have e2 := congrArg List.length heq
  omega

/-- Witness for C10 at the concrete input `"_"`. -/
theorem C10_escape_markdown_single_pass_witness :
    escape_markdown [Char.ofNat 95] = [backslashChar, Char.ofNat 95] ∧
    escape_markdown (escape_markdown [Char.ofNat 95]) ≠
      escape_markdown [Char.ofNat 95] := by
  have h := C10_escape_markdown_single_pass [Char.ofNat 95]
  exact ⟨h.1.trans (by decide), h.2.2 (Char.ofNat 95) (by decide) (by decide)⟩

/-! ## Association-list lemmas for the pending-response registry -/

theorem lookup_eraseP_self (l : List (String × PendingResponse)) (rid : String)
    (h : (l.map Prod.fst).Nodup) :
    (l.eraseP (fun e => e.1 == rid)).lookup rid = none := by
  induction l with
  | nil => rfl
  | cons e t ih =>
    obtain ⟨k, v⟩ := e
    rw [List.map_cons, List.nodup_cons] at h
    by_cases he : k = rid
    · subst he
      rw [List.eraseP_cons_of_pos (by simp)]
      rw [List.lookup_eq_none_iff]
      intro p hp
      simp only [bne_iff_ne]
      intro hc
      have hmem : p.1 ∈ List.map Prod.fst t :=
        List.mem_map_of_mem Prod.fst hp
      rw [← hc] at hmem
      exact h.1 hmem
    · rw [List.eraseP_cons_of_neg (by simp [he])]
      have hb : (rid == k) = false := by simp [Ne.symm he]
      rw [List.lookup_cons]
      simp only [hb]
      exact ih h.2

theorem lookup_eraseP_ne (l : List (String × PendingResponse))
    (rid k : String) (hk : k ≠ rid) :
    (l.eraseP (fun e => e.1 == rid)).lookup k = l.lookup k := by
  induction l with
  | nil => rfl
  | cons e t ih =>
    obtain ⟨a, v⟩ := e
    by_cases ha : a = rid
    · subst ha
      rw [List.eraseP_cons_of_pos (by simp)]
      have hb : (k == a) = false := by simp [hk]
      rw [List.lookup_cons]
      simp only [hb]
    · rw [List.eraseP_cons_of_neg (by simp [ha])]
      rw [List.lookup_cons, List.lookup_cons]
      by_cases hka : k = a
      · subst hka
        simp
      · have hb : (k == a) = false := by simp [hka]
        simp only [hb]
        exact ih

theorem lookup_map_update_self (l : List (String × PendingResponse))
    (k : String) (f : PendingResponse → PendingResponse)
    (h : (l.map Prod.fst).Nodup) :
    (l.map (fun e => if e.1 == k then (e.1, f e.2) else e)).lookup k =
      (l.lookup k).map f := by
  induction l with
  | nil => rfl
  | cons e t ih =>
    obtain ⟨a, v⟩ := e
    rw [List.map_cons, List.nodup_cons] at h
    by_cases ha : a = k
    · subst ha
      simp only [List.map_cons, beq_self_eq_true, if_pos]
      simp
    · have hb : (a == k) = false := by simp [ha]
      have hb' : (k == a) = false := by simp [Ne.symm ha]
      simp only [List.map_cons, hb, Bool.false_eq_true, if_neg,
        not_false_iff]
      rw [List.lookup_cons, List.lookup_cons]
      simp only [hb']
      exact ih h.2

theorem lookup_map_update_ne (l : List (String × PendingResponse))
    (k k' : String) (f : PendingResponse → PendingResponse) (hk : k' ≠ k) :
    (l.map (fun e => if e.1 == k then (e.1, f e.2) else e)).lookup k' =
      l.lookup k' := by
  induction l with
  | nil => rfl
  | cons e t ih =>
    obtain ⟨a, v⟩ := e
    by_cases ha : a = k
    · subst ha
      simp only [List.map_cons, beq_self_eq_true, if_pos]
      have hb : (k' == a) = false := by simp [hk]
      rw [List.lookup_cons, List.lookup_cons]
      simp only [hb]
      exact ih
    · have hb : (a == k) = false := by simp [ha]
      simp only [List.map_cons, hb, Bool.false_eq_true, if_neg,
        not_false_iff]
      rw [List.lookup_cons, List.lookup_cons]
      by_cases hka : k' = a
      · subst hka
        simp
      · have hb' : (k' == a) = false := by simp [hka]
        simp only [hb']
        exact ih

theorem lookup_eq_some_of_mem_nodup (l : List (String × PendingResponse))
    (k : String) (v : PendingResponse) (hm : (k, v) ∈ l)
    (h : (l.map Prod.fst).Nodup) : l.lookup k = some v := by
  induction l with
  | nil => simp at hm
  | cons e t ih =>
    obtain ⟨a, w⟩ := e
    rw [List.map_cons, List.nodup_cons] at h
    rcases List.mem_cons.mp hm with he | ht
    · injection he with h1 h2
      subst h1; subst h2
      simp
    · have hka : k ≠ a := by
        intro hkk
        subst hkk
        have hmem : k ∈ List.map Prod.fst t :=
          List.mem_map_of_mem Prod.fst ht
        exact h.1 hmem
      have hb : (k == a) = false := by simp [hka]
      rw [List.lookup_cons]
      simp only [hb]
      exact ih ht h.2

/-! ## Lemmas about `latestEntry` -/

theorem foldl_pickLatest_mem (t : List (String × PendingResponse))
    (b : String × PendingResponse) : t.foldl pickLatest b ∈ b :: t := by
  induction t generalizing b with
  | nil => simp
  | cons x t ih =>
    rw [List.foldl_cons]
    rcases List.mem_cons.mp (ih (pickLatest b x)) with h | h
    · rw [h, pickLatest]
      split
      · exact List.mem_cons_of_mem _ (List.mem_cons_self _ _)
      · exact List.mem_cons_self _ _
    · exact List.mem_cons_of_mem _ (List.mem_cons_of_mem _ h)

theorem foldl_pickLatest_maxTs (t : List (String × PendingResponse))
    (b : String × PendingResponse) :
    ∀ x ∈ b :: t, x.2.timestamp ≤ (t.foldl pickLatest b).2.timestamp := by
  induction t generalizing b with
  | nil =>
    intro x hx
    rw [List.mem_singleton] at hx
    subst hx
    exact Nat.le_refl _
  | cons y t ih =>
    have hb : b.2.timestamp ≤ (pickLatest b y).2.timestamp := by
      rw [pickLatest]
      split
      · exact Nat.le_of_lt (by assumption)
      · exact Nat.le_refl _
    have hy : y.2.timestamp ≤ (pickLatest b y).2.timestamp := by
      rw [pickLatest]
      split
      · exact Nat.le_refl _
      · exact Nat.le_of_not_lt (by assumption)
    intro x hx
    rw [List.foldl_cons]
    rcases List.mem_cons.mp hx with h | h
    · rw [h]
      exact Nat.le_trans hb
        (ih (pickLatest b y) _ (List.mem_cons_self _ _))
    rcases List.mem_cons.mp h with h' | h'
    · rw [h']
      exact Nat.le_trans hy
        (ih (pickLatest b y) _ (List.mem_cons_self _ _))
    · exact ih (pickLatest b y) x (List.mem_cons_of_mem _ h')

theorem latestEntry_spec (l : List (String × PendingResponse))
    (e : String × PendingResponse) (h : latestEntry l = some e) :
    e ∈ l ∧ ∀ x ∈ l, x.2.timestamp ≤ e.2.timestamp := by
  cases l with
  | nil => simp [latestEntry] at h
  | cons a t =>
    rw [latestEntry] at h
    injection h with h
    subst h
    exact ⟨foldl_pickLatest_mem t a, foldl_pickLatest_maxTs t a⟩

/-! ## Claim theorems -/

/-- C1: after a successful send registered a pending request, whichever way
the suspension of `_wait_for_response` ends — timeout, wake by an inbound
reply or by shutdown, or cancellation of the calling task — the `finally`
removes the entry registered under the correlation id from the registry
before the call returns, and no other entry is touched. -/
theorem C1_registry_cleanup_on_every_exit (st : ServerState) (rid : String)
    (mid now : Nat) (reason : WakeReason)
    (h : (st.pending_responses.map Prod.fst).Nodup) :
    (wait_for_response_phase2 st rid mid reason now).1.pending_responses.lookup
        rid = none ∧
    ∀ k, k ≠ rid →
      (wait_for_response_phase2 st rid mid reason now).1.pending_responses.lookup
          k = st.pending_responses.lookup k := by
  have hst : (wait_for_response_phase2 st rid mid reason now).1.pending_responses
      = st.pending_responses.eraseP (fun e => e.1 == rid) := by
    cases reason <;> rfl
  rw [hst]
  exact ⟨lookup_eraseP_self _ _ h, fun k hk => lookup_eraseP_ne _ _ _ hk⟩

/-- Witness for C1: a single registered request, timeout path. -/
theorem C1_registry_cleanup_on_every_exit_witness :
    (([("response_1", (⟨true, none, 0, false⟩ : PendingResponse))].map
        Prod.fst).Nodup) ∧
    (wait_for_response_phase2
        ⟨12345, 1000, [("response_1", ⟨true, none, 0, false⟩)], [], false⟩
        "response_1" 1 .timeout 5).1.pending_responses.lookup "response_1"
      = none :=
  ⟨by decide,
   (C1_registry_cleanup_on_every_exit
      ⟨12345, 1000, [("response_1", ⟨true, none, 0, false⟩)], [], false⟩
      "response_1" 1 5 .timeout (by decide)).1⟩

/-- C4: when the channel send raises, the tool returns
`{'sent': False, 'error': e, 'timestamp': ts}` and the state — registry and
conversation history — is exactly the state before the call. -/
theorem C4_send_failure_is_pure (st : ServerState) (message : List Char)
    (wait esc : Bool) (now : Nat)
    (sendFn : List Char → Except (List Char) Nat) (e : List Char)
    (hsend : sendFn (if esc then escape_markdown message else message)
      = .error e) :
    send_message_to_human_phase1 st message wait esc sendFn now =
      (.done st [("sent", .bool false), ("error", .str e),
                 ("timestamp", .str (isoTs now))],
       [if esc then escape_markdown message else message]) := by
  rw [send_message_to_human_phase1]
  simp only [hsend]

/-- Witness for C4: concrete failing send. -/
theorem C4_send_failure_is_pure_witness :
    ((fun _ : List Char => (Except.error ['x'] : Except (List Char) Nat))
        (if false then escape_markdown ['h'] else ['h']) = .error ['x']) ∧
    send_message_to_human_phase1 ⟨1, 1000, [], [], false⟩ ['h'] true false
        (fun _ => .error ['x']) 0 =
      (.done ⟨1, 1000, [], [], false⟩
        [("sent", .bool false), ("error", .str ['x']),
         ("timestamp", .str (isoTs 0))],
       [['h']]) :=
  ⟨rfl,
   C4_send_failure_is_pure ⟨1, 1000, [], [], false⟩ ['h'] true false 0
     (fun _ => .error ['x']) ['x'] rfl⟩

/-- C6: an inbound message from a chat other than the authorized one leaves
the whole state (history and registry) unchanged and only a rejection
acknowledgment is sent. -/
theorem C6_unauthorized_is_pure (st : ServerState) (chat_id : Int)
    (text : List Char) (mid now : Nat)
    (h : chat_id ≠ st.authorized_chat_id) :
    handle_telegram_message st chat_id text mid now = (st, [.unauthorized]) := by
  rw [handle_telegram_message, if_pos h]

/-- Witness for C6: the spec scenario, identity 99999 against authorized
12345. -/
theorem C6_unauthorized_is_pure_witness :
    ((99999 : Int) ≠ (⟨12345, 1000, [], [], false⟩ :
        ServerState).authorized_chat_id) ∧
    handle_telegram_message ⟨12345, 1000, [], [], false⟩ 99999 ['h'] 3 4 =
      (⟨12345, 1000, [], [], false⟩, [.unauthorized]) :=
  ⟨by decide,
   C6_unauthorized_is_pure ⟨12345, 1000, [], [], false⟩ 99999 ['h'] 3 4
     (by decide)⟩

/-- C8 counterexample: on the send-failure path the returned dict has only
the keys `sent`, `error`, `timestamp`; the `response` and `message_id`
fields claimed to be present in every result are absent. -/
theorem C8_counterexample :
    ((send_message_to_human_phase1 ⟨12345, 1000, [], [], false⟩ ['h'] true
        true (fun _ => .error ['x']) 0).1.result).map resultKeys =
      some ["sent", "error", "timestamp"] ∧
    (((send_message_to_human_phase1 ⟨12345, 1000, [], [], false⟩ ['h'] true
        true (fun _ => .error ['x']) 0).1.result).getD []).lookup "response"
      = none ∧
    (((send_message_to_human_phase1 ⟨12345, 1000, [], [], false⟩ ['h'] true
        true (fun _ => .error ['x']) 0).1.result).getD []).lookup "message_id"
      = none :=
  ⟨rfl, rfl, rfl⟩

/-- C8 (amended): the key sets of the returned dicts differ by path —
send failure `{sent, error, timestamp}`; success without waiting
`{sent, message_id, timestamp}`; timeout
`{sent, response, error, message_id, timestamp}`; resolution (reply or
shutdown) `{sent, response, message_id, timestamp}`. -/
theorem C8_result_fields_by_path :
    (∀ (st : ServerState) (msg : List Char) (wait esc : Bool) (now : Nat)
        (e : List Char),
      ((send_message_to_human_phase1 st msg wait esc (fun _ => .error e)
          now).1.result).map resultKeys =
        some ["sent", "error", "timestamp"]) ∧
    (∀ (st : ServerState) (msg : List Char) (esc : Bool) (now mid : Nat),
      ((send_message_to_human_phase1 st msg false esc (fun _ => .ok mid)
          now).1.result).map resultKeys =
        some ["sent", "message_id", "timestamp"]) ∧
    (∀ (st : ServerState) (rid : String) (mid now : Nat),
      ((wait_for_response_phase2 st rid mid .timeout now).2).map resultKeys =
        some ["sent", "response", "error", "message_id", "timestamp"]) ∧
    (∀ (st : ServerState) (rid : String) (mid now : Nat),
      ((wait_for_response_phase2 st rid mid .woken now).2).map resultKeys =
        some ["sent", "response", "message_id", "timestamp"]) := by
  refine ⟨fun st msg wait esc now e => ?_, fun st msg esc now mid => ?_,
    fun st rid mid now => ?_, fun st rid mid now => ?_⟩ <;> rfl

/-! ## Ring-buffer behaviour of the bounded history -/

theorem takeRight_all (cap : Nat) (l : List HistoryEntry)
    (h : l.length ≤ cap) : takeRight cap l = l := by
  rw [takeRight, Nat.sub_eq_zero_of_le h, List.drop_zero]

theorem dequeAppend_eq_takeRight (cap : Nat) (log : List HistoryEntry)
    (e : HistoryEntry) : dequeAppend cap log e = takeRight cap (log ++ [e]) := by
  rw [dequeAppend, takeRight]
  by_cases h : cap < (log ++ [e]).length
  · rw [if_pos h]
  · rw [if_neg h, Nat.sub_eq_zero_of_le (Nat.le_of_not_lt h), List.drop_zero]

theorem length_dequeAppend_le (cap : Nat) (log : List HistoryEntry)
    (e : HistoryEntry) (h : log.length ≤ cap) :
    (dequeAppend cap log e).length ≤ cap := by
  rw [dequeAppend]
  by_cases hc : cap < (log ++ [e]).length
  · rw [if_pos hc, List.length_drop]
    omega
  · rw [if_neg hc]
    omega

theorem takeRight_takeRight_append (cap : Nat) (l es : List HistoryEntry)
    (h : l.length ≤ cap + 1) :
    takeRight cap (takeRight cap l ++ es) = takeRight cap (l ++ es) := by
  rcases Nat.le_total l.length cap with hle | hge
  · rw [takeRight_all cap l hle]
  · rcases Nat.lt_or_ge cap l.length with hgt | hge2
    swap
    · rw [takeRight_all cap l hge2]
    have hn : l.length = cap + 1 := by omega
    cases l with
    | nil => simp at hn
    | cons x l' =>
      simp only [List.length_cons] at hn
      have h1 : takeRight cap (x :: l') = l' := by
        rw [takeRight]
        have h2 : (x :: l').length - cap = 1 := by
          simp only [List.length_cons]
          omega
        rw [h2, List.drop_succ_cons, List.drop_zero]
      rw [h1, List.cons_append, takeRight, takeRight]
      rw [show (l' ++ es).length - cap = es.length from by
        simp only [List.length_append]; omega]
      rw [show (x :: (l' ++ es)).length - cap = es.length + 1 from by
        simp only [List.length_cons, List.length_append]; omega]
      rw [List.drop_succ_cons]

theorem foldl_dequeAppend_eq_takeRight (cap : Nat) (es log : List HistoryEntry)
    (hlog : log.length ≤ cap) :
    es.foldl (dequeAppend cap) log = takeRight cap (log ++ es) := by
  induction es generalizing log with
  | nil => rw [List.foldl_nil, List.append_nil, takeRight_all cap log hlog]
  | cons e es ih =>
    rw [List.foldl_cons, ih (dequeAppend cap log e)
      (length_dequeAppend_le cap log e hlog)]
    rw [dequeAppend_eq_takeRight]
    rw [takeRight_takeRight_append cap (log ++ [e]) es
      (by simp only [List.length_append, List.length_cons,
            List.length_nil]; omega)]
    rw [List.append_assoc, List.singleton_append]

/-- C7: starting from an empty history, appending `N > cap` entries through
the bounded deque leaves exactly the `cap` most recently appended entries,
in append order, the oldest evicted first; the configured default capacity
is 1000. -/
theorem C7_history_ring_buffer (cap : Nat) (es : List HistoryEntry)
    (h : cap < es.length) :
    es.foldl (dequeAppend cap) [] = es.drop (es.length - cap) ∧
    (es.foldl (dequeAppend cap) []).length = cap ∧
    MAX_HISTORY_SIZE = 1000 := by
  have h1 := foldl_dequeAppend_eq_takeRight cap es [] (by simp)
  rw [List.nil_append, takeRight] at h1
  refine ⟨h1, ?_, rfl⟩
  rw [h1, List.length_drop]
  omega

/-- Witness for C7: three appends into capacity 2 keep the last two. -/
theorem C7_history_ring_buffer_witness :
    2 < ([⟨0, "a", [], 0⟩, ⟨1, "a", [], 1⟩, ⟨2, "a", [], 2⟩] :
        List HistoryEntry).length ∧
    ([(⟨0, "a", [], 0⟩ : HistoryEntry), ⟨1, "a", [], 1⟩,
      ⟨2, "a", [], 2⟩].foldl (dequeAppend 2) [] =
        [⟨1, "a", [], 1⟩, ⟨2, "a", [], 2⟩]) :=
  ⟨by decide,
   by
    have h := C7_history_ring_buffer 2
      [⟨0, "a", [], 0⟩, ⟨1, "a", [], 1⟩, ⟨2, "a", [], 2⟩] (by decide)
    rw [h.1]
    rfl⟩

/-! ## The correlation policy of the inbound handler -/

theorem handle_authorized (st : ServerState) (chat_id : Int)
    (text : List Char) (mid now : Nat)
    (hauth : chat_id = st.authorized_chat_id) :
    handle_telegram_message st chat_id text mid now =
      (let st1 : ServerState := { st with
         conversation_history :=
           dequeAppend st.max_history_size st.conversation_history
             ⟨now, "human_to_llm", text, mid⟩ }
       match latestEntry st.pending_responses with
       | some kp =>
           if kp.2.waiting then
             ({ st1 with
                pending_responses :=
                  st.pending_responses.map (fun e =>
                    if e.1 == kp.1 then
                      (e.1, { e.2 with
                                response := some text
                                waiting := false
                                eventSet := true })
                    else e) }, [.received])
           else
             (st1, [.noted])
       | none => (st1, [.noted])) := by
  rw [handle_telegram_message, if_neg (by simp [hauth])]

/-- C3 (amended): on an authorized inbound message with a non-empty
registry, the handler selects the entry with the most recent creation
timestamp among **all** registered entries (Waiting or not); if that entry
is Waiting it is resolved with the inbound text, its event is set, a
`received` acknowledgment is sent and every other entry is untouched; if
that entry is *not* Waiting, no entry at all is resolved — even if an older
Waiting entry exists — and only a `noted` acknowledgment is sent. -/
theorem C3_latest_overall_entry_wins (st : ServerState) (chat_id : Int)
    (text : List Char) (mid now : Nat) (k : String) (p : PendingResponse)
    (hauth : chat_id = st.authorized_chat_id)
    (hnd : (st.pending_responses.map Prod.fst).Nodup)
    (hlatest : latestEntry st.pending_responses = some (k, p)) :
    (∀ x ∈ st.pending_responses, x.2.timestamp ≤ p.timestamp) ∧
    (p.waiting = true →
      (handle_telegram_message st chat_id text mid now).2 = [.received] ∧
      (handle_telegram_message st chat_id text mid
          now).1.pending_responses.lookup k =
        some { p with response := some text, waiting := false,
                      eventSet := true } ∧
      ∀ k', k' ≠ k →
        (handle_telegram_message st chat_id text mid
            now).1.pending_responses.lookup k' =
          st.pending_responses.lookup k') ∧
    (p.waiting = false →
      (handle_telegram_message st chat_id text mid now).2 = [.noted] ∧
      (handle_telegram_message st chat_id text mid now).1.pending_responses =
        st.pending_responses) := by
  have hspec := latestEntry_spec _ _ hlatest
  refine ⟨hspec.2, fun hw => ?_, fun hw => ?_⟩
  · rw [handle_authorized st chat_id text mid now hauth]
    simp only [hlatest]
    rw [if_pos hw]
    refine ⟨rfl, ?_, fun k' hk' => ?_⟩
    · rw [lookup_map_update_self st.pending_responses k
          (fun v => { waiting := false, response := some text,
                      timestamp := v.timestamp, eventSet := true }) hnd,
        lookup_eq_some_of_mem_nodup st.pending_responses k p hspec.1 hnd]
      rfl
    · exact lookup_map_update_ne st.pending_responses k k'
        (fun v => { waiting := false, response := some text,
                    timestamp := v.timestamp, eventSet := true }) hk'
  · rw [handle_authorized st chat_id text mid now hauth]
    simp only [hlatest]
    rw [if_neg (by rw [hw]; exact Bool.false_ne_true)]
    exact ⟨rfl, rfl⟩

/-- Witness for C3 (amended): two entries, the newer one Waiting — it is
resolved and the older one is untouched. -/
theorem C3_latest_overall_entry_wins_witness :
    ((12345 : Int) = (⟨12345, 1000,
       [("response_1", ⟨true, none, 1, false⟩),
        ("response_2", ⟨true, none, 2, false⟩)], [], false⟩ :
         ServerState).authorized_chat_id) ∧
    latestEntry [("response_1", (⟨true, none, 1, false⟩ : PendingResponse)),
        ("response_2", ⟨true, none, 2, false⟩)] =
      some ("response_2", ⟨true, none, 2, false⟩) ∧
    (handle_telegram_message ⟨12345, 1000,
        [("response_1", ⟨true, none, 1, false⟩),
         ("response_2", ⟨true, none, 2, false⟩)], [], false⟩
        12345 ['y'] 9 5).2 = [.received] ∧
    (handle_telegram_message ⟨12345, 1000,
        [("response_1", ⟨true, none, 1, false⟩),
         ("response_2", ⟨true, none, 2, false⟩)], [], false⟩
        12345 ['y'] 9 5).1.pending_responses.lookup "response_2" =
      some ⟨false, some ['y'], 2, true⟩ := by
  have h := C3_latest_overall_entry_wins ⟨12345, 1000,
      [("response_1", ⟨true, none, 1, false⟩),
       ("response_2", ⟨true, none, 2, false⟩)], [], false⟩
      12345 ['y'] 9 5 "response_2" ⟨true, none, 2, false⟩
      rfl (by decide) (by decide)
  exact ⟨rfl, by decide, (h.2.1 rfl).1, (h.2.1 rfl).2.1⟩

/-- C3 counterexample: registry `[(response_1 : Waiting, created at 1),
(response_2 : already resolved, created at 2)]` — a Waiting entry exists,
yet the authorized inbound message resolves nothing: the handler picks the
most recent entry among *all* entries, finds it not Waiting, acknowledges
`noted`, and the most recently created Waiting entry `response_1` stays
Waiting, unresolved and unwoken, contradicting the claim. -/
theorem C3_counterexample :
    (handle_telegram_message ⟨12345, 1000,
        [("response_1", ⟨true, none, 1, false⟩),
         ("response_2", ⟨false, some ['x'], 2, true⟩)], [], false⟩
        12345 ['h'] 9 5).2 = [Ack.noted] ∧
    (handle_telegram_message ⟨12345, 1000,
        [("response_1", ⟨true, none, 1, false⟩),
         ("response_2", ⟨false, some ['x'], 2, true⟩)], [], false⟩
        12345 ['h'] 9 5).1.pending_responses.lookup "response_1" =
      some ⟨true, none, 1, false⟩ := by
  constructor <;> rfl

/-- C2: round trip. With an empty registry, a waiting `send_message_to_human`
whose send succeeds suspends on `response_id_of mid`; an authorized inbound
reply `t` then resolves that (only) pending request with a `received`
acknowledgment, and the resumed waiter returns
`{'sent': True, 'response': t, 'message_id': mid, 'timestamp': ts}` with the
registry left empty. -/
theorem C2_round_trip (st0 : ServerState) (msg t : List Char) (esc : Bool)
    (sendFn : List Char → Except (List Char) Nat)
    (mid mid2 now1 now2 now3 : Nat)
    (hempty : st0.pending_responses = [])
    (hsend : sendFn (if esc then escape_markdown msg else msg) = .ok mid) :
    ∃ st1 : ServerState,
      (send_message_to_human_phase1 st0 msg true esc sendFn now1).1 =
        .suspended st1 (response_id_of mid) mid ∧
      (handle_telegram_message st1 st0.authorized_chat_id t mid2 now2).2 =
        [.received] ∧
      (wait_for_response_phase2
          (handle_telegram_message st1 st0.authorized_chat_id t mid2 now2).1
          (response_id_of mid) mid .woken now3).2 =
        some [("sent", .bool true), ("response", .str t),
              ("message_id", .num mid), ("timestamp", .str (isoTs now3))] ∧
      (wait_for_response_phase2
          (handle_telegram_message st1 st0.authorized_chat_id t mid2 now2).1
          (response_id_of mid) mid .woken
          now3).1.pending_responses = [] := by
  refine ⟨{ st0 with
      conversation_history :=
        dequeAppend st0.max_history_size st0.conversation_history
          ⟨now1, "llm_to_human", msg, mid⟩
      pending_responses :=
        [(response_id_of mid, ⟨true, none, now1, false⟩)] }, ?_, ?_, ?_, ?_⟩
  · rw [send_message_to_human_phase1]
    simp only [hsend, hempty, if_pos, List.nil_append]
  · rw [handle_authorized _ _ _ _ _ rfl]
    simp only [latestEntry, List.foldl_nil]
    rfl
  · rw [handle_authorized _ _ _ _ _ rfl]
    simp only [latestEntry, List.foldl_nil]
    rw [wait_for_response_phase2]
    simp only [List.map_cons, List.map_nil, beq_self_eq_true, if_pos,
      List.lookup_cons_self]
  · rw [handle_authorized _ _ _ _ _ rfl]
    simp only [latestEntry, List.foldl_nil]
    rw [wait_for_response_phase2]
    simp only [List.map_cons, List.map_nil, beq_self_eq_true, if_pos]
    rw [List.eraseP_cons_of_pos (by simp)]

/-- Witness for C2 at concrete inputs. -/
theorem C2_round_trip_witness :
    ((⟨12345, 1000, [], [], false⟩ : ServerState).pending_responses = []) ∧
    ((fun _ : List Char => (Except.ok 7 : Except (List Char) Nat))
        (if false then escape_markdown ['q'] else ['q']) = .ok 7) ∧
    ∃ st1 : ServerState,
      (send_message_to_human_phase1 ⟨12345, 1000, [], [], false⟩ ['q'] true
          false (fun _ => .ok 7) 1).1 =
        .suspended st1 (response_id_of 7) 7 ∧
      (handle_telegram_message st1 12345 ['t'] 8 2).2 = [.received] ∧
      (wait_for_response_phase2
          (handle_telegram_message st1 12345 ['t'] 8 2).1
          (response_id_of 7) 7 .woken 3).2 =
        some [("sent", .bool true), ("response", .str ['t']),
              ("message_id", .num 7), ("timestamp", .str (isoTs 3))] ∧
      (wait_for_response_phase2
          (handle_telegram_message st1 12345 ['t'] 8 2).1
          (response_id_of 7) 7 .woken 3).1.pending_responses = [] :=
  ⟨rfl, rfl,
   C2_round_trip ⟨12345, 1000, [], [], false⟩ ['q'] ['t'] false
     (fun _ => .ok 7) 7 8 1 2 3 rfl rfl⟩

theorem resumeAll_empty (l : List (String × PendingResponse))
    (st : ServerState) (mid now : Nat) (h : st.pending_responses = l) :
    ((l.map Prod.fst).foldl
        (fun s rid => (wait_for_response_phase2 s rid mid .woken now).1)
        st).pending_responses = [] := by
  induction l generalizing st with
  | nil => rw [List.map_nil, List.foldl_nil, h]
  | cons e t ih =>
    rw [List.map_cons, List.foldl_cons]
    apply ih
    show (wait_for_response_phase2 st e.1 mid .woken
      now).1.pending_responses = t
    have h2 : (wait_for_response_phase2 st e.1 mid .woken
        now).1.pending_responses =
        st.pending_responses.eraseP (fun x => x.1 == e.1) := rfl
    rw [h2, h, List.eraseP_cons_of_pos (by simp)]

/-- C5 (amended): for any registry of Waiting, unresolved callers,
`shutdown_handler` sets the single-fire wake event of every one of them,
leaving every entry registered, Waiting and unresolved under the same
correlation ids; any waiter resuming on the `woken` path from any state
whose entries are all unresolved returns a non-error outcome with a null
response — a dict with exactly the keys `sent`, `response`, `message_id`,
`timestamp`, distinguishable from a timeout only by the *absence* of the
`error` field, with no cancellation indicator of its own — and its
resumption leaves the remaining entries unresolved; once every waiter has
resumed, the registry is empty. -/
theorem C5_shutdown_wakes_all (st : ServerState) (mid now : Nat)
    (hall : ∀ e ∈ st.pending_responses,
      e.2.waiting = true ∧ e.2.response = none) :
    (shutdown_handler st).shutdownEvent = true ∧
    (shutdown_handler st).pending_responses.map Prod.fst =
      st.pending_responses.map Prod.fst ∧
    (∀ e ∈ (shutdown_handler st).pending_responses,
      e.2.eventSet = true ∧ e.2.waiting = true ∧ e.2.response = none) ∧
    (∀ (st' : ServerState) (rid : String) (mid' now' : Nat),
      (∀ e ∈ st'.pending_responses, e.2.response = none) →
      (wait_for_response_phase2 st' rid mid' .woken now').2 =
        some [("sent", .bool true), ("response", .null),
              ("message_id", .num mid'),
              ("timestamp", .str (isoTs now'))] ∧
      ∀ e ∈ (wait_for_response_phase2 st' rid mid' .woken
          now').1.pending_responses, e.2.response = none) ∧
    (resumeAll (shutdown_handler st) mid now).pending_responses = [] := by
  refine ⟨rfl, ?_, ?_, ?_, ?_⟩
  · rw [shutdown_handler]
    simp only [List.map_map]
    rfl
  · intro e he
    obtain ⟨a, ha, rfl⟩ := List.mem_map.mp he
    exact ⟨rfl, (hall a ha).1, (hall a ha).2⟩
  · intro st' rid mid' now' hresp
    constructor
    · cases hlk : st'.pending_responses.lookup rid with
      | none => simp [wait_for_response_phase2, hlk]
      | some p =>
        obtain ⟨l1, l2, hl, -⟩ := List.lookup_eq_some_iff.mp hlk
        have hm : (rid, p) ∈ st'.pending_responses := by
          rw [hl]
          exact List.mem_append_right _ (List.mem_cons_self _ _)
        have hpnone : p.response = none := hresp _ hm
        simp [wait_for_response_phase2, hlk, hpnone]
    · intro e he
      exact hresp e (List.mem_of_mem_eraseP he)
  · rw [resumeAll]
    exact resumeAll_empty (shutdown_handler st).pending_responses
      (shutdown_handler st) mid now rfl

/-- Witness for C5 (amended): two concrete Waiting callers; after shutdown
and both resumptions the registry is empty. -/
theorem C5_shutdown_wakes_all_witness :
    (∀ e ∈ (⟨12345, 1000,
        [("response_1", ⟨true, none, 1, false⟩),
         ("response_2", ⟨true, none, 2, false⟩)], [], false⟩ :
          ServerState).pending_responses,
      e.2.waiting = true ∧ e.2.response = none) ∧
    (resumeAll (shutdown_handler ⟨12345, 1000,
        [("response_1", ⟨true, none, 1, false⟩),
         ("response_2", ⟨true, none, 2, false⟩)], [], false⟩) 4
        7).pending_responses = [] :=
  ⟨by decide,
   (C5_shutdown_wakes_all ⟨12345, 1000,
      [("response_1", ⟨true, none, 1, false⟩),
       ("response_2", ⟨true, none, 2, false⟩)], [], false⟩ 4 7
      (by decide)).2.2.2.2⟩

/-- C5 counterexample: a waiter force-woken by `shutdown_handler` returns a
dict with exactly the keys `sent`, `response`, `message_id`, `timestamp` —
the same shape as a success, with no `error` field and no field of any kind
indicating cancellation, so the outcome carries no cancellation indicator
distinguishing it from a timeout. -/
theorem C5_counterexample :
    (wait_for_response_phase2
        (shutdown_handler ⟨12345, 1000,
          [("response_1", ⟨true, none, 1, false⟩)], [], false⟩)
        "response_1" 1 .woken 7).2 =
      some [("sent", .bool true), ("response", .null),
            ("message_id", .num 1), ("timestamp", .str (isoTs 7))] ∧
    (((wait_for_response_phase2
        (shutdown_handler ⟨12345, 1000,
          [("response_1", ⟨true, none, 1, false⟩)], [], false⟩)
        "response_1" 1 .woken 7).2).getD []).lookup "error" = none ∧
    resultKeys (((wait_for_response_phase2
        (shutdown_handler ⟨12345, 1000,
          [("response_1", ⟨true, none, 1, false⟩)], [], false⟩)
        "response_1" 1 .woken 7).2).getD []) =
      ["sent", "response", "message_id", "timestamp"] :=
  ⟨rfl, rfl, rfl⟩

/-- C9: with `escape_markdown_chars` set and a successful send, the text
handed to the channel is `escape_markdown message`, while the history entry
appended by the call stores the original, unescaped `message`. -/
theorem C9_escaped_sent_original_logged (st : ServerState) (msg : List Char)
    (wait : Bool) (sendFn : List Char → Except (List Char) Nat)
    (mid now : Nat) (hsend : sendFn (escape_markdown msg) = .ok mid) :
    (send_message_to_human_phase1 st msg wait true sendFn now).2 =
      [escape_markdown msg] ∧
    (send_message_to_human_phase1 st msg wait true sendFn
        now).1.state.conversation_history =
      dequeAppend st.max_history_size st.conversation_history
        ⟨now, "llm_to_human", msg, mid⟩ := by
  rw [send_message_to_human_phase1]
  simp only [if_pos, hsend]
  cases wait
  · exact ⟨rfl, rfl⟩
  · exact ⟨rfl, rfl⟩

/-- Witness for C9 at a concrete input containing a special character. -/
theorem C9_escaped_sent_original_logged_witness :
    ((fun _ : List Char => (Except.ok 3 : Except (List Char) Nat))
        (escape_markdown ['a', '!']) = .ok 3) ∧
    (send_message_to_human_phase1 ⟨12345, 1000, [], [], false⟩ ['a', '!']
        true true (fun _ => .ok 3) 6).2 = [escape_markdown ['a', '!']] ∧
    (send_message_to_human_phase1 ⟨12345, 1000, [], [], false⟩ ['a', '!']
        true true (fun _ => .ok 3)
        6).1.state.conversation_history =
      dequeAppend 1000 [] ⟨6, "llm_to_human", ['a', '!'], 3⟩ :=
  ⟨rfl,
   (C9_escaped_sent_original_logged ⟨12345, 1000, [], [], false⟩ ['a', '!']
     true (fun _ => .ok 3) 3 6 rfl).1,
   (C9_escaped_sent_original_logged ⟨12345, 1000, [], [], false⟩ ['a', '!']
     true (fun _ => .ok 3) 3 6 rfl).2⟩

end TelegramMCP
